import Mathlib

/-!
# FEN2SVG: verification of the board-rendering pipeline

Shallow embedding of the FEN-to-SVG diagram generator (`fen2svg.c`,
`linkedlist.c`).  Strings from the C program are modelled as `List Char`
(the linked-list container copies strings and preserves append order, so a
Lean `List` is a faithful model).  An SVG `<use .../>` output line is
modelled by the `DrawingInstr` structure recording the referenced symbol,
the optional `fill` attribute and the `x`/`y` placement; the surrounding
literal SVG text carries no further information.  Fallible C functions
(returning `false`/`NULL`) are modelled with `Option`; dereferencing a
`NULL` result (undefined behaviour, an abort in practice) is modelled by
propagating `none`.
-/

set_option autoImplicit false

namespace Fen2Svg

/-! ## Geometric constants (`#define`s of fen2svg.c) -/

def SQUARE_WIDTH : Nat := 72

def SQUARE_HEIGHT : Nat := 72

def BORDER_THICKNESS : Nat := 2

def HORIZONTAL_COORDINATES_HEIGHT : Nat := 48

def VERTICAL_COORDINATES_WIDTH : Nat := 48

def MOVE_INDICATOR_WIDTH : Nat := 72

/-! ## Geometry calculator -/

/-- `computeWholeDrawingWidth` of fen2svg.c: total canvas width from the
enabled features around the 8-tile-wide board. -/
def computeWholeDrawingWidth (bCoordinates bBorder bMoveIndicator : Bool) : Nat :=
  (if bCoordinates then VERTICAL_COORDINATES_WIDTH else 0)
    + (if bBorder then BORDER_THICKNESS else 0)
    + 8 * SQUARE_WIDTH
    + (if bBorder then BORDER_THICKNESS else 0)
    + (if bMoveIndicator then MOVE_INDICATOR_WIDTH else 0)

/-- `computeWholeDrawingHeight` of fen2svg.c. -/
def computeWholeDrawingHeight (bCoordinates bBorder : Bool) : Nat :=
  (if bBorder then BORDER_THICKNESS else 0)
    + 8 * SQUARE_HEIGHT
    + (if bBorder then BORDER_THICKNESS else 0)
    + (if bCoordinates then HORIZONTAL_COORDINATES_HEIGHT else 0)

/-- Horizontal translation applied to the board area (`nTranslateX` as set up
at the top of `createPieces` and `generateEmptyBoard`). -/
def boardTranslateX (bBorder bCoordinates : Bool) : Nat :=
  (if bCoordinates then VERTICAL_COORDINATES_WIDTH else 0)
    + (if bBorder then BORDER_THICKNESS else 0)

/-- Vertical translation applied to the board area (`nTranslateY`). -/
def boardTranslateY (bBorder : Bool) : Nat :=
  if bBorder then BORDER_THICKNESS else 0

/-- Pixel origin of square `(file, rank)` (file = `nSquareCount % 8`,
rank = `nSquareCount / 8`), exactly the `x`/`y` arguments of the two
`snprintf` calls in the FEN-parsing loop of `createPieces`: the
black-at-bottom orientation uses `7 - file` and `7 - rank`. -/
def squareOrigin (bBorder bCoordinates : Bool) (file rank : Nat)
    (bWhiteAtBottom : Bool) : Nat × Nat :=
  if bWhiteAtBottom then
    (SQUARE_WIDTH * file + boardTranslateX bBorder bCoordinates,
     SQUARE_HEIGHT * rank + boardTranslateY bBorder)
  else
    (SQUARE_WIDTH * (7 - file) + boardTranslateX bBorder bCoordinates,
     SQUARE_HEIGHT * (7 - rank) + boardTranslateY bBorder)

/-! ## Drawing instructions -/

/-- One generated SVG `<use xlink:href = "#ref" ... x = "x" y = "y" />` line:
the referenced definition, the optional `fill` attribute (only the move
indicator carries one) and the pixel placement. -/
structure DrawingInstr where
  ref : String
  fill : Option String
  x : Nat
  y : Nat
deriving DecidableEq, Repr

/-! ## Active color (`isWhiteToPlay`) -/

/-- `isWhiteToPlay` of fen2svg.c: skip to the first blank, skip the blanks,
answer `false` exactly when the next character is `b`; at end of string the
default `true` is kept. -/
def isWhiteToPlay (sFEN : List Char) : Bool :=
  match (sFEN.dropWhile (fun c => c ≠ ' ')).dropWhile (fun c => c = ' ') with
  | [] => true
  | c :: _ => if c = 'b' then false else true

/-! ## File names -/

/-- The admissible characters of `generateFENFileName`
(`"1pP2348RrkK5bBNn6qQ7"`). -/
def sAdmittedCharacters : List Char :=
  ['1', 'p', 'P', '2', '3', '4', '8', 'R', 'r', 'k', 'K', '5', 'b', 'B', 'N',
   'n', '6', 'q', 'Q', '7']

/-- Model of C `strchr(s, c)`: index of the first occurrence of `c` in `s`. -/
def strchrIdx (s : List Char) (c : Char) : Option Nat :=
  match s with
  | [] => none
  | p :: ps => if p = c then some 0 else (strchrIdx ps c).map (· + 1)

/-- `generateFENFileName` of fen2svg.c: keep the admitted characters of the
placement field, append `b` or `w` for the side to play, append `.svg`. -/
def generateFENFileName (sFEN : List Char) : List Char :=
  let kept := (sFEN.takeWhile (fun c => c ≠ ' ')).filter
    (fun c => (strchrIdx sAdmittedCharacters c).isSome)
  let rest := (sFEN.dropWhile (fun c => c ≠ ' ')).dropWhile (fun c => c = ' ')
  let side : Char :=
    match rest with
    | [] => 'w'
    | c :: _ => if c = 'b' then 'b' else 'w'
  kept ++ [side] ++ ['.', 's', 'v', 'g']

/-- The `%05d` part of `NUMBERED_FILE_NAME_FORMAT`: decimal digits of `n`,
left-padded with `0` to at least five characters. -/
def zeroPad5 (n : Nat) : List Char :=
  let ds := (Nat.repr n).toList
  List.replicate (5 - ds.length) '0' ++ ds

/-- `generateNumberedFileName` of fen2svg.c: `snprintf` of `"dia%05d.svg"`
into a 13-byte buffer, hence truncation to 12 characters (only reachable
for a diagram number of at least 100000). -/
def generateNumberedFileName (nDiagramNumber : Nat) : List Char :=
  (['d', 'i', 'a'] ++ zeroPad5 nDiagramNumber ++ ['.', 's', 'v', 'g']).take 12

/-! ## Piece rendering (`createPieces`) -/

/-- `sFENPiece` of `createPieces`. -/
def sFENPiece : List Char :=
  ['B', 'b', 'K', 'k', 'N', 'n', 'P', 'p', 'Q', 'q', 'R', 'r']

/-- `asSVGPiece` of `createPieces`, indexed in parallel with `sFENPiece`. -/
def asSVGPiece : List String :=
  ["whitebishop", "blackbishop", "whiteking", "blackking", "whiteknight",
   "blackknight", "whitepawn", "blackpawn", "whitequeen", "blackqueen",
   "whiterook", "blackrook"]

/-- The digit test of the parsing loop: `c > '0' && c < '9'`. -/
def isFENDigit (c : Char) : Bool := '0' < c && c < '9'

/-- A character is a recognized piece letter when `strchr(sFENPiece, c)`
finds it. -/
def isPieceChar (c : Char) : Bool := (strchrIdx sFENPiece c).isSome

/-- The instruction emitted for piece number `idx` (into `asSVGPiece`) on
square `nSquareCount`. -/
def pieceInstr (bBorder bCoordinates bWhiteAtBottom : Bool)
    (idx nSquareCount : Nat) : DrawingInstr :=
  let p := squareOrigin bBorder bCoordinates (nSquareCount % 8)
    (nSquareCount / 8) bWhiteAtBottom
  ⟨asSVGPiece.getD idx "", none, p.1, p.2⟩

/-- The move-indicator instruction appended at the end of `createPieces`:
its own translation doubles the border thickness horizontally, and it is
placed right of the board at the bottom row, filled for the side to move. -/
def moveIndicatorInstr (bBorder bCoordinates bWhiteToPlay : Bool) : DrawingInstr :=
  let nTranslateX := (if bCoordinates then VERTICAL_COORDINATES_WIDTH else 0)
    + (if bBorder then BORDER_THICKNESS + BORDER_THICKNESS else 0)
  let nTranslateY := if bBorder then BORDER_THICKNESS else 0
  ⟨"moveindicator", some (if bWhiteToPlay then "white" else "black"),
   SQUARE_WIDTH * 8 + nTranslateX, SQUARE_HEIGHT * 7 + nTranslateY⟩

/-- The FEN-parsing loop of `createPieces`: runs while the string is not
exhausted, the character is not a blank and fewer than 64 squares are
accounted for; a digit advances the square cursor, a piece letter emits an
instruction, `/` is ignored, anything else is the error return
(`return false`, i.e. `NULL`, modelled by `none`). -/
def createPiecesLoop (bBorder bCoordinates bWhiteAtBottom : Bool) :
    List Char → Nat → Option (List DrawingInstr)
  | [], _ => some []
  | c :: rest, nSquareCount =>
    if c = ' ' ∨ 64 ≤ nSquareCount then some []
    else if isFENDigit c then
      createPiecesLoop bBorder bCoordinates bWhiteAtBottom rest
        (nSquareCount + (c.toNat - '0'.toNat))
    else
      match strchrIdx sFENPiece c with
      | some idx =>
        (createPiecesLoop bBorder bCoordinates bWhiteAtBottom rest
          (nSquareCount + 1)).map
          (fun l => pieceInstr bBorder bCoordinates bWhiteAtBottom idx
            nSquareCount :: l)
      | none =>
        if c = '/' then
          createPiecesLoop bBorder bCoordinates bWhiteAtBottom rest nSquareCount
        else none

/-- `createPieces` of fen2svg.c: determine the side to move and the
orientation (`bWhiteToPlay || !bRotateBoard`), run the parsing loop from
square 0, and, on success, append the move indicator when requested. -/
def createPieces (sFEN : List Char)
    (bBorder bCoordinates bMoveIndicator bRotateBoard : Bool) :
    Option (List DrawingInstr) :=
  let bWhiteToPlay := isWhiteToPlay sFEN
  let bWhiteAtBottom := bWhiteToPlay || !bRotateBoard
  (createPiecesLoop bBorder bCoordinates bWhiteAtBottom sFEN 0).map
    (fun lstPieces =>
      if bMoveIndicator then
        lstPieces ++ [moveIndicatorInstr bBorder bCoordinates bWhiteToPlay]
      else lstPieces)

/-! ## Empty board (`generateEmptyBoard`) -/

/-- One checkerboard square instruction of `generateEmptyBoard`. -/
def squareInstr (nTranslateX nTranslateY nX nY : Nat) (bLightSquare : Bool) :
    DrawingInstr :=
  ⟨if bLightSquare then "lightsquare" else "darksquare", none,
   nX * SQUARE_WIDTH + nTranslateX, nY * SQUARE_HEIGHT + nTranslateY⟩

/-- The inner column loop of the checkerboard: emit the remaining squares of
row `nY`, toggling the light/dark flag after each square, and return the
flag's final value. -/
def emptyBoardRow (nTranslateX nTranslateY nY : Nat) :
    Nat → Nat → Bool → List DrawingInstr × Bool
  | 0, _, bLightSquare => ([], bLightSquare)
  | k + 1, nX, bLightSquare =>
    let r := emptyBoardRow nTranslateX nTranslateY nY k (nX + 1) (!bLightSquare)
    (squareInstr nTranslateX nTranslateY nX nY bLightSquare :: r.1, r.2)

/-- The outer row loop of the checkerboard: after each row of eight squares
the light/dark flag is toggled once more. -/
def emptyBoardRows (nTranslateX nTranslateY : Nat) :
    Nat → Nat → Bool → List DrawingInstr
  | 0, _, _ => []
  | k + 1, nY, bLightSquare =>
    let row := emptyBoardRow nTranslateX nTranslateY nY 8 0 bLightSquare
    row.1 ++ emptyBoardRows nTranslateX nTranslateY k (nY + 1) (!row.2)

/-- The single `#borders` instruction, shifted right when coordinates are
enabled. -/
def borderInstrs (bBorder bCoordinates : Bool) : List DrawingInstr :=
  if bBorder then
    [⟨"borders", none,
      (if bCoordinates then VERTICAL_COORDINATES_WIDTH else 0), 0⟩]
  else []

/-- `"coordinate"` followed by the glyph character (`#coordinate8`,
`#coordinatea`, ...). -/
def coordinateGlyph (c : Char) : String := "coordinate".push c

/-- Vertical coordinate glyph order: `8` down to `1` with white at the
bottom, `1` up to `8` otherwise. -/
def verticalCoordChars (bWhiteAtBottom : Bool) : List Char :=
  if bWhiteAtBottom then ['8', '7', '6', '5', '4', '3', '2', '1']
  else ['1', '2', '3', '4', '5', '6', '7', '8']

/-- Horizontal coordinate glyph order: `a` to `h` with white at the bottom,
`h` down to `a` otherwise. -/
def horizontalCoordChars (bWhiteAtBottom : Bool) : List Char :=
  if bWhiteAtBottom then ['a', 'b', 'c', 'd', 'e', 'f', 'g', 'h']
  else ['h', 'g', 'f', 'e', 'd', 'c', 'b', 'a']

/-- The vertical coordinate loop: `x = 0`, `y = nY + nTranslateY` stepping
one square height per glyph. -/
def coordColumn (nTranslateY : Nat) : List Char → Nat → List DrawingInstr
  | [], _ => []
  | c :: cs, nY =>
    ⟨coordinateGlyph c, none, 0, nY + nTranslateY⟩ ::
      coordColumn nTranslateY cs (nY + SQUARE_HEIGHT)

/-- The horizontal coordinate loop: `x = nX + nTranslateX` stepping one
square width per glyph, constant `y`. -/
def coordRow (nTranslateX nYFinal : Nat) : List Char → Nat → List DrawingInstr
  | [], _ => []
  | c :: cs, nX =>
    ⟨coordinateGlyph c, none, nX + nTranslateX, nYFinal⟩ ::
      coordRow nTranslateX nYFinal cs (nX + SQUARE_WIDTH)

/-- The coordinate section of `generateEmptyBoard`: the vertical labels use
`nTranslateY = BORDER_THICKNESS` and the horizontal labels sit below the
board at `y = 8 * SQUARE_HEIGHT + 2 * BORDER_THICKNESS`, shifted right by
`VERTICAL_COORDINATES_WIDTH + BORDER_THICKNESS` (both translations are
applied unconditionally in the source). -/
def coordinateInstrs (bWhiteAtBottom : Bool) : List DrawingInstr :=
  coordColumn BORDER_THICKNESS (verticalCoordChars bWhiteAtBottom) 0
    ++ coordRow (VERTICAL_COORDINATES_WIDTH + BORDER_THICKNESS)
      (8 * SQUARE_HEIGHT + (BORDER_THICKNESS + BORDER_THICKNESS))
      (horizontalCoordChars bWhiteAtBottom) 0

/-- `generateEmptyBoard` of fen2svg.c: 64 checkerboard squares (starting
light, toggling per square and once more per row), then the optional
border, then the optional coordinate labels.  The `bMoveIndicator`
parameter is accepted and unused, as in the source. -/
def generateEmptyBoard (bBorder bCoordinates bMoveIndicator bWhiteAtBottom :
    Bool) : List DrawingInstr :=
  emptyBoardRows (boardTranslateX bBorder bCoordinates)
      (boardTranslateY bBorder) 8 0 true
    ++ borderInstrs bBorder bCoordinates
    ++ (if bCoordinates then coordinateInstrs bWhiteAtBottom else [])

/-! ## Writing diagrams (`writeListsToFile`, `writeDiagramsToFiles`) -/

/-- The environment seen by `fopen(..., "w")`: which destination names can
be opened for writing. -/
structure FileSystem where
  canOpen : List Char → Bool

/-- One successfully written output document: its name and the three layers
written in order (each layer's lines in list order, followed by the
closing `</svg>` marker, which carries no further information). -/
structure WrittenFile where
  name : List Char
  template : List String
  board : List DrawingInstr
  pieces : List DrawingInstr
deriving DecidableEq, Repr

/-- `writeListsToFile` of fen2svg.c: `none` when the destination cannot be
opened (the C function prints a message and returns `false`), otherwise
the document written. -/
def writeListsToFile (fs : FileSystem) (sOutputFile : List Char)
    (lstTemplate : List String) (lstEmptyBoard lstPieces : List DrawingInstr) :
    Option WrittenFile :=
  if fs.canOpen sOutputFile then
    some ⟨sOutputFile, lstTemplate, lstEmptyBoard, lstPieces⟩
  else none

/-- The per-position loop of `writeDiagramsToFiles`, carrying
`nDiagramNumber`.  When `createPieces` returns `NULL` (a malformed FEN),
the C code goes on to evaluate `*lstPieces`, dereferencing a null pointer:
undefined behaviour that aborts the run, modelled by `none`.  When the
destination cannot be opened, `writeListsToFile`'s `false` return value is
ignored and the loop continues with the next position. -/
def writeDiagramsLoop (fs : FileSystem) (lstTemplate : List String)
    (lstNormalEmptyBoard lstReversedEmptyBoard : List DrawingInstr)
    (bBorder bCoordinates bMoveIndicator bPositionAsFileName bRotateBoard :
      Bool) :
    List (List Char) → Nat → Option (List WrittenFile)
  | [], _ => some []
  | sFEN :: rest, nDiagramNumber =>
    let lstEmptyBoard :=
      if isWhiteToPlay sFEN || !bRotateBoard then lstNormalEmptyBoard
      else lstReversedEmptyBoard
    match createPieces sFEN bBorder bCoordinates bMoveIndicator bRotateBoard with
    | none => none
    | some lstPieces =>
      let sFileName :=
        if bPositionAsFileName then generateFENFileName sFEN
        else generateNumberedFileName nDiagramNumber
      let nNext :=
        if bPositionAsFileName then nDiagramNumber else nDiagramNumber + 1
      match writeListsToFile fs sFileName lstTemplate lstEmptyBoard lstPieces with
      | some wf =>
        (writeDiagramsLoop fs lstTemplate lstNormalEmptyBoard
          lstReversedEmptyBoard bBorder bCoordinates bMoveIndicator
          bPositionAsFileName bRotateBoard rest nNext).map (fun out => wf :: out)
      | none =>
        writeDiagramsLoop fs lstTemplate lstNormalEmptyBoard
          lstReversedEmptyBoard bBorder bCoordinates bMoveIndicator
          bPositionAsFileName bRotateBoard rest nNext

/-- `writeDiagramsToFiles` of fen2svg.c: process the batch in order with the
diagram counter starting at 1. -/
def writeDiagramsToFiles (fs : FileSystem) (lstTemplate : List String)
    (lstNormalEmptyBoard lstReversedEmptyBoard : List DrawingInstr)
    (lstFEN : List (List Char))
    (bBorder bCoordinates bMoveIndicator bPositionAsFileName bRotateBoard :
      Bool) : Option (List WrittenFile) :=
  writeDiagramsLoop fs lstTemplate lstNormalEmptyBoard lstReversedEmptyBoard
    bBorder bCoordinates bMoveIndicator bPositionAsFileName bRotateBoard
    lstFEN 1

/-! ## Spec-side definitions

Definitions written from the specification's wording, used to compare the
source-derived functions against the spec (refinement claims). -/

/-- The placement field of an input line: its characters before the first
blank. -/
def fieldPart (s : List Char) : List Char :=
  s.takeWhile (fun c => c ≠ ' ')

/-- Spec wording: "the first whitespace-delimited token after the placement
field". -/
def firstTokenAfterField (s : List Char) : List Char :=
  ((s.dropWhile (fun c => c ≠ ' ')).dropWhile (fun c => c = ' ')).takeWhile
    (fun c => c ≠ ' ')

/-- Spec wording: the digits 1–8. -/
def fenDigitChars : List Char := ['1', '2', '3', '4', '5', '6', '7', '8']

/-- Spec wording: the twelve piece letters. -/
def fenPieceLetterChars : List Char :=
  ['K', 'Q', 'R', 'B', 'N', 'P', 'k', 'q', 'r', 'b', 'n', 'p']

/-- Spec wording: "the admissible characters of the FEN field (digits,
piece letters)". -/
def isAdmissibleSpec (c : Char) : Bool :=
  c ∈ fenDigitChars ∨ c ∈ fenPieceLetterChars

/-- Spec wording for the FEN-derived output name: admissible characters of
the field in order of appearance, a trailing `w`/`b` for the active color,
and the fixed `.svg` extension. -/
def fenDerivedNameSpec (s : List Char) : List Char :=
  (s.takeWhile (fun c => c ≠ ' ')).filter isAdmissibleSpec
    ++ [if isWhiteToPlay s then 'w' else 'b'] ++ ['.', 's', 'v', 'g']

/-- Spec wording: "the cumulative square count of digits and piece letters"
of a placement field. -/
def accountedSquares : List Char → Nat
  | [] => 0
  | c :: cs =>
    (if isFENDigit c then c.toNat - '0'.toNat
     else if isPieceChar c then 1 else 0) + accountedSquares cs

/-- A character the parsing loop consumes without error: a digit 1–8, a
recognized piece letter, or the rank separator. -/
def isPlacementChar (c : Char) : Bool :=
  isFENDigit c || isPieceChar c || c = '/'

/-- Number of piece letters in a list of characters. -/
def countPieceChars (l : List Char) : Nat :=
  (l.filter (fun c => isPieceChar c)).length

/-- The spec's malformed scenario line. -/
def fenMalformedX : List Char := "4k2X/8/8/8/8/8/8/4K3 w - - 0 1".toList

/-- The spec's two-kings scenario line. -/
def fenTwoKings : List Char := "4k3/8/8/8/8/8/8/4K3 w - - 0 1".toList

/-- The spec's empty-board scenario line. -/
def fenEmptyBoard : List Char := "8/8/8/8/8/8/8/8 w - - 0 1".toList

/-- A placement field accounting for 65 squares: nine ranks of rooks would
not fit on the board. -/
def fieldOverflow : List Char :=
  "rrrrrrrr/rrrrrrrr/rrrrrrrr/rrrrrrrr/rrrrrrrr/rrrrrrrr/rrrrrrrr/rrrrrrrr/r".toList

/-- The overflowing field as a full input line. -/
def fenOverflow : List Char := fieldOverflow ++ " w - - 0 1".toList

/-- An environment in which every destination opens. -/
def allOpenFS : FileSystem := ⟨fun _ => true⟩

/-- An environment in which exactly the first numbered destination fails to
open. -/
def denyFirstFS : FileSystem := ⟨fun n => n ≠ "dia00001.svg".toList⟩

/-! ## Helper lemmas about `strchrIdx` and character classes -/

lemma strchrIdx_isSome_iff {s : List Char} {c : Char} :
    (strchrIdx s c).isSome = true ↔ c ∈ s := by
  induction s with
  | nil => simp [strchrIdx]
  | cons a t ih =>
    by_cases h : a = c
    · subst h; simp [strchrIdx]
    · simp [strchrIdx, h, ih, Ne.symm h]

lemma strchrIdx_eq_none_iff {s : List Char} {c : Char} :
    strchrIdx s c = none ↔ c ∉ s := by
  rw [← Option.not_isSome_iff_eq_none, not_iff_not.mpr strchrIdx_isSome_iff]

lemma isPieceChar_false_of_digit {c : Char} (h : isFENDigit c = true) :
    isPieceChar c = false := by
  have hm : c ∉ sFENPiece := by
    intro hc
    fin_cases hc <;> exact absurd h (by decide)
  simp [isPieceChar, strchrIdx_eq_none_iff.mpr hm]

lemma placement_ne_space {c : Char} (h : isPlacementChar c = true) :
    c ≠ ' ' := by
  intro e; subst e; exact absurd h (by decide)

lemma fieldPart_cons (c : Char) (rest : List Char) :
    fieldPart (c :: rest) = if c = ' ' then [] else c :: fieldPart rest := by
  by_cases h : c = ' ' <;> simp [fieldPart, List.takeWhile_cons, h]

lemma fieldPart_append {field suffix : List Char}
    (h : ∀ c ∈ field, c ≠ ' ') :
    fieldPart (field ++ ' ' :: suffix) = field := by
  induction field with
  | nil => simp [fieldPart]
  | cons a t ih =>
    have ha : a ≠ ' ' := h a (by simp)
    have ih2 := ih (fun c hc => h c (by simp [hc]))
    rw [List.cons_append, fieldPart_cons, if_neg ha, ih2]

/-! ## Behaviour of the FEN-parsing loop -/

/-- The parsing loop succeeds whenever every character before the first
blank is a digit, a piece letter or `/` — whatever the square count. -/
lemma createPiecesLoop_isSome (bB bC w : Bool) :
    ∀ (cs : List Char) (sq : Nat),
      (∀ c ∈ fieldPart cs, isPlacementChar c = true) →
      (createPiecesLoop bB bC w cs sq).isSome = true := by
  intro cs
  induction cs with
  | nil => intro sq _; rfl
  | cons c rest ih =>
    intro sq h
    rw [fieldPart_cons] at h
    by_cases hcsp : c = ' '
    · subst hcsp; simp [createPiecesLoop]
    · rw [if_neg hcsp] at h
      have hc : isPlacementChar c = true := h c (by simp)
      have hrest : ∀ c' ∈ fieldPart rest, isPlacementChar c' = true :=
        fun c' hc' => h c' (by simp [hc'])
      by_cases hsq : 64 ≤ sq
      · simp [createPiecesLoop, hsq]
      · by_cases hd : isFENDigit c = true
        · simp only [createPiecesLoop]
          rw [if_neg (not_or.mpr ⟨hcsp, hsq⟩), if_pos hd]
          exact ih _ hrest
        · have hd' : isFENDigit c = false := by simpa using hd
          by_cases hp : isPieceChar c = true
          · obtain ⟨i, hi⟩ := Option.isSome_iff_exists.mp hp
            obtain ⟨l, hl⟩ := Option.isSome_iff_exists.mp (ih (sq + 1) hrest)
            simp only [createPiecesLoop]
            rw [if_neg (not_or.mpr ⟨hcsp, hsq⟩),
              if_neg (by simp [hd'] : ¬ (isFENDigit c = true))]
            simp only [hi, hl, Option.map_some', Option.isSome_some]
          · have hp' : isPieceChar c = false := by simpa using hp
            have hslash : c = '/' := by
              simpa [isPlacementChar, hd', hp'] using hc
            subst hslash
            simp only [createPiecesLoop]
            rw [if_neg (not_or.mpr ⟨hcsp, hsq⟩),
              if_neg (by decide : ¬ (isFENDigit '/' = true))]
            simp only [show strchrIdx sFENPiece '/' = none from rfl]
            simpa using ih _ hrest

/-- On a field of placement characters accounting for fewer than 64
squares, the parsing loop succeeds and emits exactly one instruction per
piece letter of the field. -/
lemma createPiecesLoop_count (bB bC w : Bool) (suffix : List Char) :
    ∀ (field : List Char) (sq : Nat),
      (∀ c ∈ field, isPlacementChar c = true) →
      sq + accountedSquares field < 64 →
      ∃ l, createPiecesLoop bB bC w (field ++ ' ' :: suffix) sq = some l ∧
        l.length = countPieceChars field := by
  intro field
  induction field with
  | nil =>
    intro sq _ _
    refine ⟨[], ?_, rfl⟩
    simp [createPiecesLoop]
  | cons c rest ih =>
    intro sq h hsq
    have hc := h c (by simp)
    have hrest : ∀ c' ∈ rest, isPlacementChar c' = true :=
      fun c' hc' => h c' (by simp [hc'])
    have hcsp : ¬ (c = ' ') := placement_ne_space hc
    have hlt : ¬ (64 ≤ sq) := by
      have : 0 ≤ accountedSquares (c :: rest) := Nat.zero_le _
      omega
    by_cases hd : isFENDigit c = true
    · have hnp : isPieceChar c = false := isPieceChar_false_of_digit hd
      have hacc : accountedSquares (c :: rest)
          = (c.toNat - '0'.toNat) + accountedSquares rest := by
        simp [accountedSquares, hd]
      rw [hacc] at hsq
      obtain ⟨l, hl, hlen⟩ := ih (sq + (c.toNat - '0'.toNat)) hrest (by omega)
      refine ⟨l, ?_, ?_⟩
      · simp only [List.cons_append, createPiecesLoop]
        rw [if_neg (not_or.mpr ⟨hcsp, hlt⟩), if_pos hd]
        exact hl
      · rw [hlen]
        simp [countPieceChars, List.filter_cons, hnp]
    · have hd' : isFENDigit c = false := by simpa using hd
      by_cases hp : isPieceChar c = true
      · obtain ⟨i, hi⟩ := Option.isSome_iff_exists.mp hp
        have hacc : accountedSquares (c :: rest) = 1 + accountedSquares rest := by
          simp [accountedSquares, hd', hp]
        rw [hacc] at hsq
        obtain ⟨l, hl, hlen⟩ := ih (sq + 1) hrest (by omega)
        refine ⟨pieceInstr bB bC w i sq :: l, ?_, ?_⟩
        · simp only [List.cons_append, createPiecesLoop]
          rw [if_neg (not_or.mpr ⟨hcsp, hlt⟩),
            if_neg (by simp [hd'] : ¬ (isFENDigit c = true))]
          simp only [hi, List.append_eq, hl, Option.map_some']
        · simp [countPieceChars, List.filter_cons, hp, hlen]
      · have hp' : isPieceChar c = false := by simpa using hp
        have hslash : c = '/' := by
          simpa [isPlacementChar, hd', hp'] using hc
        subst hslash
        have hacc : accountedSquares ('/' :: rest) = accountedSquares rest := by
          simp [accountedSquares, hd', hp']
        rw [hacc] at hsq
        obtain ⟨l, hl, hlen⟩ := ih sq hrest (by omega)
        refine ⟨l, ?_, ?_⟩
        · simp only [List.cons_append, createPiecesLoop]
          rw [if_neg (not_or.mpr ⟨hcsp, hlt⟩),
            if_neg (by decide : ¬ (isFENDigit '/' = true))]
          simp only [show strchrIdx sFENPiece '/' = none from rfl]
          simpa using hl
        · rw [hlen]
          simp [countPieceChars, List.filter_cons, hp']

lemma mapIdx_ext {α β : Type} :
    ∀ (l : List α) (f g : Nat → α → β), (∀ i a, f i a = g i a) →
      l.mapIdx f = l.mapIdx g := by
  intro l
  induction l with
  | nil => intro f g _; rfl
  | cons a t ih =>
    intro f g h
    simp only [List.mapIdx_cons, h 0 a]
    rw [ih _ _ (fun i x => h (i + 1) x)]

/-- Once every position of the batch parses, the output loop always runs to
completion, writing exactly the positions whose destination can be opened,
under the names given by the FEN derivation or the running counter. -/
lemma writeDiagramsLoop_spec (fs : FileSystem) (t : List String)
    (nb rb : List DrawingInstr) (bB bC bM bP bR : Bool) :
    ∀ (fens : List (List Char)) (n : Nat),
      (∀ fen ∈ fens, (createPieces fen bB bC bM bR).isSome = true) →
      ∃ out, writeDiagramsLoop fs t nb rb bB bC bM bP bR fens n = some out ∧
        out.map WrittenFile.name =
          (fens.mapIdx (fun i fen =>
            if bP then generateFENFileName fen
            else generateNumberedFileName (n + i))).filter fs.canOpen := by
  intro fens
  induction fens with
  | nil => intro n _; exact ⟨[], rfl, by simp⟩
  | cons fen rest ih =>
    intro n h
    obtain ⟨ps, hps⟩ := Option.isSome_iff_exists.mp (h fen (by simp))
    by_cases hbP : bP = true
    · obtain ⟨out, hout, hnames⟩ := ih n (fun f hf => h f (by simp [hf]))
      rw [hbP] at hout
      by_cases hopen : fs.canOpen (generateFENFileName fen) = true
      · refine ⟨⟨generateFENFileName fen, t,
          if isWhiteToPlay fen || !bR then nb else rb, ps⟩ :: out, ?_, ?_⟩
        · simp [writeDiagramsLoop, hps, writeListsToFile, hbP, hopen, hout]
        · simp [List.mapIdx_cons, List.filter_cons, hbP, hopen, hnames]
      · have hopen' : fs.canOpen (generateFENFileName fen) = false := by
          simpa using hopen
        refine ⟨out, ?_, ?_⟩
        · simp [writeDiagramsLoop, hps, writeListsToFile, hbP, hopen', hout]
        · simp [List.mapIdx_cons, List.filter_cons, hbP, hopen', hnames]
    · have hbP' : bP = false := by simpa using hbP
      obtain ⟨out, hout, hnames⟩ := ih (n + 1) (fun f hf => h f (by simp [hf]))
      rw [hbP'] at hout
      have htail : rest.mapIdx
            (fun i _ => generateNumberedFileName (n + (i + 1)))
          = rest.mapIdx (fun i _ => generateNumberedFileName (n + 1 + i)) := by
        refine mapIdx_ext rest _ _ ?_
        intro i a
        rw [show n + (i + 1) = n + 1 + i from by omega]
      by_cases hopen : fs.canOpen (generateNumberedFileName n) = true
      · refine ⟨⟨generateNumberedFileName n, t,
          if isWhiteToPlay fen || !bR then nb else rb, ps⟩ :: out, ?_, ?_⟩
        · simp [writeDiagramsLoop, hps, writeListsToFile, hbP', hopen, hout]
        · simp [List.mapIdx_cons, List.filter_cons, hbP', hopen, hnames, htail]
      · have hopen' : fs.canOpen (generateNumberedFileName n) = false := by
          simpa using hopen
        refine ⟨out, ?_, ?_⟩
        · simp [writeDiagramsLoop, hps, writeListsToFile, hbP', hopen', hout]
        · simp [List.mapIdx_cons, List.filter_cons, hbP', hopen', hnames, htail]

/-! ## Further helper lemmas -/

lemma head_dropWhile_false {α : Type} (p : α → Bool) :
    ∀ (l : List α) {c : α} {t : List α}, l.dropWhile p = c :: t → p c = false := by
  intro l
  induction l with
  | nil => intro c t h; exact absurd h (by simp)
  | cons a t0 ih =>
    intro c t h
    rw [List.dropWhile_cons] at h
    by_cases hp : p a = true
    · rw [if_pos hp] at h
      exact ih h
    · rw [if_neg hp] at h
      cases h
      simpa using hp

lemma admitted_eq_admissibleSpec (c : Char) :
    ((strchrIdx sAdmittedCharacters c).isSome : Bool) = isAdmissibleSpec c := by
  by_cases h : c ∈ sAdmittedCharacters
  · have h1 : (strchrIdx sAdmittedCharacters c).isSome = true :=
      strchrIdx_isSome_iff.mpr h
    have h2 : isAdmissibleSpec c = true := by
      fin_cases h <;> decide
    rw [h1, h2]
  · have h1 : (strchrIdx sAdmittedCharacters c).isSome = false := by
      rw [strchrIdx_eq_none_iff.mpr h]
      rfl
    have h2 : isAdmissibleSpec c = false := by
      by_contra hh
      have htrue : isAdmissibleSpec c = true := by simpa using hh
      have hmem : c ∈ fenDigitChars ∨ c ∈ fenPieceLetterChars := by
        simpa [isAdmissibleSpec] using htrue
      apply h
      rcases hmem with hm | hm <;> (fin_cases hm <;> decide)
    rw [h1, h2]

/-! ## Claims -/

/-- C4: for every render configuration (border and coordinates each on or
off) and all file, rank in 0..7, the pixel origin of square (file, rank) in
white-at-bottom orientation equals the pixel origin of square
(7-file, 7-rank) in black-at-bottom orientation. -/
theorem c4_squareOrigin_orientation :
    ∀ (bBorder bCoordinates : Bool) (file rank : Fin 8),
      squareOrigin bBorder bCoordinates (file : Nat) (rank : Nat) true
        = squareOrigin bBorder bCoordinates (7 - (file : Nat))
          (7 - (rank : Nat)) false := by
  decide

/-- C7: the active color is black exactly when the first blank-delimited
token after the placement field starts with `b`; in every other case,
including the absence of such a token, it is white. -/
theorem c7_active_color :
    ∀ s : List Char,
      isWhiteToPlay s = false ↔ (firstTokenAfterField s).head? = some 'b' := by
  intro s
  simp only [isWhiteToPlay, firstTokenAfterField]
  cases hr : (s.dropWhile (fun c => c ≠ ' ')).dropWhile (fun c => c = ' ') with
  | nil => simp
  | cons c t =>
    have hcne : c ≠ ' ' := by
      simpa using head_dropWhile_false (fun c => c = ' ') _ hr
    by_cases hb : c = 'b' <;> simp [List.takeWhile_cons, hcne, hb]

/-- C9: the whole-drawing width and height are 8 * 72 with no features
enabled, and are monotonically non-decreasing in the enabled features;
they take no position input at all, so they are independent of the
position being rendered. -/
theorem c9_drawing_dimensions :
    (computeWholeDrawingWidth false false false = 8 * 72
      ∧ computeWholeDrawingHeight false false = 8 * 72)
    ∧ (∀ c1 b1 m1 c2 b2 m2 : Bool,
        (c1 = true → c2 = true) → (b1 = true → b2 = true) →
        (m1 = true → m2 = true) →
        computeWholeDrawingWidth c1 b1 m1 ≤ computeWholeDrawingWidth c2 b2 m2
          ∧ computeWholeDrawingHeight c1 b1 ≤ computeWholeDrawingHeight c2 b2) := by
  decide

/-- Witness for C9 at a concrete feature pair. -/
theorem c9_witness :
    computeWholeDrawingWidth false false false
        ≤ computeWholeDrawingWidth true true true
      ∧ computeWholeDrawingHeight false false
        ≤ computeWholeDrawingHeight true true :=
  c9_drawing_dimensions.2 false false false true true true
    (by decide) (by decide) (by decide)

set_option maxHeartbeats 2000000 in
/-- C6: for every render configuration and both orientations, the
empty-board layer contains exactly 64 square instructions; the square at
(file, rank) — index rank*8+file of the layer — is light exactly when
file+rank is even; and the 64 square instructions are identical in the two
orientations. -/
theorem c6_checkerboard :
    ∀ (bBorder bCoordinates bMoveIndicator oW : Bool) (file rank : Fin 8),
      ((generateEmptyBoard bBorder bCoordinates bMoveIndicator oW).countP
          (fun d => d.ref = "lightsquare" ∨ d.ref = "darksquare")) = 64
      ∧ (((generateEmptyBoard bBorder bCoordinates bMoveIndicator oW).take 64).get?
            ((rank : Nat) * 8 + (file : Nat))).map DrawingInstr.ref
          = some (if ((file : Nat) + (rank : Nat)) % 2 = 0 then "lightsquare"
            else "darksquare")
      ∧ (generateEmptyBoard bBorder bCoordinates bMoveIndicator true).take 64
          = (generateEmptyBoard bBorder bCoordinates bMoveIndicator false).take 64 := by
  decide

/-- C3 counterexample: a placement field accounting for 65 squares — more
than 64 — is parsed successfully by `createPieces` instead of being
rejected. -/
theorem c3_counterexample :
    64 < accountedSquares fieldOverflow
      ∧ fieldPart fenOverflow = fieldOverflow
      ∧ (createPieces fenOverflow false false false false).isSome = true := by
  decide

/-- C3 amended: a field accounting for more than 64 squares is not a parse
failure — the loop stops after 64 squares are accounted for and the
position is rendered from the prefix; parsing fails only on an
unrecognized character.  Whenever the field consists of digits, piece
letters and `/`, parsing succeeds. -/
theorem c3_overflow_accepted :
    ∀ (field suffix : List Char) (bB bC bM bR : Bool),
      (∀ c ∈ field, isPlacementChar c = true) →
      64 < accountedSquares field →
      (createPieces (field ++ ' ' :: suffix) bB bC bM bR).isSome = true := by
  intro field suffix bB bC bM bR h hover
  have hfp : fieldPart (field ++ ' ' :: suffix) = field :=
    fieldPart_append (fun c hc => placement_ne_space (h c hc))
  have hsome := createPiecesLoop_isSome bB bC
    (isWhiteToPlay (field ++ ' ' :: suffix) || !bR) (field ++ ' ' :: suffix) 0
    (by rw [hfp]; exact h)
  obtain ⟨l, hl⟩ := Option.isSome_iff_exists.mp hsome
  simp [createPieces, hl]

/-- Witness for C3's amended statement at the 65-square field. -/
theorem c3_witness :
    (createPieces (fieldOverflow ++ ' ' :: "w - - 0 1".toList)
      false false false false).isSome = true :=
  c3_overflow_accepted fieldOverflow ("w - - 0 1".toList) false false false
    false (by decide) (by decide)

/-- C10: a placement field of digits, piece letters and separators that
accounts for fewer than 64 squares parses without any error, and the
emitted instructions cover exactly the squares actually mentioned: one
instruction per piece letter of the field. -/
theorem c10_underfilled_accepted :
    ∀ (field suffix : List Char) (bB bC bR : Bool),
      (∀ c ∈ field, isPlacementChar c = true) →
      accountedSquares field < 64 →
      ∃ l, createPieces (field ++ ' ' :: suffix) bB bC false bR = some l
        ∧ l.length = countPieceChars field := by
  intro field suffix bB bC bR h hacc
  obtain ⟨l, hl, hlen⟩ := createPiecesLoop_count bB bC
    (isWhiteToPlay (field ++ ' ' :: suffix) || !bR) suffix field 0 h
    (by omega)
  exact ⟨l, by simp [createPieces, hl], hlen⟩

/-- Witness for C10 at the under-filled field `8/8`. -/
theorem c10_witness :
    ∃ l, createPieces ("8/8".toList ++ ' ' :: "w - - 0 1".toList)
        false false false false = some l
      ∧ l.length = countPieceChars "8/8".toList :=
  c10_underfilled_accepted ("8/8".toList) ("w - - 0 1".toList) false false
    false (by decide) (by decide)

/-- C1 (code defect): on the malformed scenario line `createPieces` prints
its diagnostic and returns the null sentinel, but `writeDiagramsToFiles`
then dereferences that null pieces list, aborting the whole run — so the
subsequent well-formed line produces no output file, instead of the run
continuing as intended. -/
theorem c1_malformed_aborts_run :
    createPieces fenMalformedX false false false false = none
    ∧ writeDiagramsToFiles allOpenFS []
        (generateEmptyBoard false false false true)
        (generateEmptyBoard false false false false)
        [fenMalformedX, fenTwoKings] false false false false false = none := by
  decide

/-- C2 counterexample: with the first numbered destination unopenable, the
run does not halt — the second position is still processed and its file
written, contradicting the claim that no later position is processed. -/
theorem c2_counterexample :
    denyFirstFS.canOpen (generateNumberedFileName 1) = false
    ∧ (writeDiagramsToFiles denyFirstFS []
          (generateEmptyBoard false false false true)
          (generateEmptyBoard false false false false)
          [fenTwoKings, fenEmptyBoard] false false false false false).map
        (fun out => out.map WrittenFile.name)
      = some ["dia00002.svg".toList] := by
  decide

/-- C2 amended: an unopenable destination is not fatal: the failed
position's document is simply not written and the run continues —
whenever every position of the batch parses, the run completes, writing
exactly the positions whose destination can be opened. -/
theorem c2_output_failure_not_fatal :
    ∀ (fs : FileSystem) (t : List String) (nb rb : List DrawingInstr)
      (fens : List (List Char)) (bB bC bM bP bR : Bool),
      (∀ fen ∈ fens, (createPieces fen bB bC bM bR).isSome = true) →
      ∃ out, writeDiagramsToFiles fs t nb rb fens bB bC bM bP bR = some out
        ∧ out.map WrittenFile.name =
          (fens.mapIdx (fun i fen =>
            if bP then generateFENFileName fen
            else generateNumberedFileName (1 + i))).filter fs.canOpen :=
  fun fs t nb rb fens bB bC bM bP bR h =>
    writeDiagramsLoop_spec fs t nb rb bB bC bM bP bR fens 1 h

/-- Witness for C2's amended statement: a two-position batch with the first
destination denied. -/
theorem c2_witness :
    ∃ out, writeDiagramsToFiles denyFirstFS [] [] []
        [fenTwoKings, fenEmptyBoard] false false false false false = some out
      ∧ out.map WrittenFile.name =
        (([fenTwoKings, fenEmptyBoard]).mapIdx (fun i fen =>
          if false then generateFENFileName fen
          else generateNumberedFileName (1 + i))).filter denyFirstFS.canOpen :=
  c2_output_failure_not_fatal denyFirstFS [] [] [] [fenTwoKings, fenEmptyBoard]
    false false false false false (by decide)

/-- C8: output naming — the FEN-derived name is exactly the admissible
characters of the field (digits 1–8 and the twelve piece letters, in
order, all others dropped) followed by `w`/`b` for the active color and
`.svg`; the numbered names are the 5-digit zero-padded counter; and in a
run the i-th position (i from 1) receives the FEN-derived name or
`generateNumberedFileName i` according to the mode. -/
theorem c8_output_names :
    (∀ s : List Char, generateFENFileName s = fenDerivedNameSpec s)
    ∧ (generateNumberedFileName 1 = "dia00001.svg".toList
        ∧ generateNumberedFileName 2 = "dia00002.svg".toList)
    ∧ (∀ (fens : List (List Char)) (t : List String)
        (nb rb : List DrawingInstr) (bB bC bM bP bR : Bool),
        (∀ fen ∈ fens, (createPieces fen bB bC bM bR).isSome = true) →
        ∃ out, writeDiagramsToFiles allOpenFS t nb rb fens bB bC bM bP bR
            = some out
          ∧ out.map WrittenFile.name = fens.mapIdx (fun i fen =>
              if bP then generateFENFileName fen
              else generateNumberedFileName (i + 1))) := by
  refine ⟨?_, ⟨by decide, by decide⟩, ?_⟩
  · intro s
    simp only [generateFENFileName, fenDerivedNameSpec, isWhiteToPlay,
      ← Bool.cond_eq_ite]
    rw [List.filter_congr (fun c _ => admitted_eq_admissibleSpec c)]
    cases (s.dropWhile (fun c => c ≠ ' ')).dropWhile (fun c => c = ' ') with
    | nil => rfl
    | cons c t => by_cases hb : c = 'b' <;> simp [hb]
  · intro fens t nb rb bB bC bM bP bR h
    obtain ⟨out, hout, hnames⟩ :=
      writeDiagramsLoop_spec allOpenFS t nb rb bB bC bM bP bR fens 1 h
    refine ⟨out, hout, ?_⟩
    rw [hnames]
    have hfilter : ∀ (l : List (List Char)), l.filter allOpenFS.canOpen = l := by
      intro l
      induction l with
      | nil => rfl
      | cons a t0 ih => simp [allOpenFS, List.filter_cons, ih]
    rw [hfilter]
    exact mapIdx_ext fens _ _ (fun i a => by rw [Nat.add_comm 1 i])

/-- Witness for C8's run-level naming at a concrete two-position batch in
numbered mode. -/
theorem c8_witness :
    ∃ out, writeDiagramsToFiles allOpenFS [] [] []
        [fenTwoKings, fenEmptyBoard] false false false false false = some out
      ∧ out.map WrittenFile.name = ([fenTwoKings, fenEmptyBoard]).mapIdx
          (fun i fen => if false then generateFENFileName fen
            else generateNumberedFileName (i + 1)) :=
  c8_output_names.2.2 [fenTwoKings, fenEmptyBoard] [] [] [] false false false
    false false (by decide)

end Fen2Svg
